import Mathlib

set_option maxHeartbeats 1000000

namespace CipherV2

/-!
Shallow embedding of the memory-scanning and DLL-injection engine of the
repository: `src/utils/memory_editor.py` (`MemoryScanner`) and
`src/utils/dll_injector.py` (`DLLInjector`).  Machine integers are modelled
as `Nat`/`Int` with explicit `% 2 ^ w`; Python floats are modelled by their
IEEE-754 bit patterns together with an explicit IEEE equality predicate;
Python exceptions are modelled with `Except`, and the `try/except` wrappers
with `Option`/`Bool` results.
-/

/-- A byte map modelling the attached target process's readable memory:
`m a = some b` means the byte at address `a` reads as `b`; `none` means any
read touching `a` fails (page not committed / not readable). -/
abbrev Mem := Nat → Option Nat

/-- Auxiliary recursion for `readBytes`: read `n` consecutive bytes starting
at `base`, failing if any byte of the range is unreadable (an
all-or-nothing `ReadProcessMemory`, as `pymem.memory.read_bytes` behaves). -/
def readBytesAux (m : Mem) (base : Nat) : Nat → Option (List Nat)
  | 0 => some []
  | n + 1 =>
    match m base with
    | none => none
    | some b =>
      match readBytesAux m (base + 1) n with
      | none => none
      | some rest => some (b :: rest)

/-- Read `n` bytes at `base` from the target process; all-or-nothing. -/
def readBytes (m : Mem) (base n : Nat) : Option (List Nat) :=
  readBytesAux m base n

/-- Python `range(0, stop, stride)` for a positive `stride` (the strides the
source uses are 1, 2, 4 and 8).  A negative Python `stop` corresponds to
`stop = 0` here, and both denote the empty range. -/
def pyRange (stop stride : Nat) : List Nat :=
  (List.range ((stop + stride - 1) / stride)).map (fun j => j * stride)

/-- Little-endian byte list of width `w` for the unsigned value `u`
(the byte layout produced by `struct.pack` with a `<` format). -/
def leBytes : Nat → Nat → List Nat
  | 0, _ => []
  | w + 1, u => u % 256 :: leBytes w (u / 256)

/-- Unsigned value of a little-endian byte list (as read by `struct.unpack`
with a `<` format). -/
def fromLE : List Nat → Nat
  | [] => 0
  | b :: bs => b + 256 * fromLE bs

/-- Python `struct.pack(ASCII-lt-i, v)` as called in
`MemoryScanner.first_scan`: two's-complement little-endian 4 bytes; raises
`struct.error` (modelled by `none`) unless `v` fits in a signed 32-bit
integer. -/
def packInt32 (v : Int) : Option (List Nat) :=
  if -(2 ^ 31) ≤ v ∧ v < 2 ^ 31 then some (leBytes 4 (v.emod (2 ^ 32)).toNat)
  else none

/-- Signed 32-bit decode of 4 little-endian bytes, as performed by
`pymem.memory.read_int` via `struct.unpack`. -/
def unpackInt32 (bs : List Nat) : Int :=
  if fromLE bs < 2 ^ 31 then (fromLE bs : Int) else (fromLE bs : Int) - 2 ^ 32

/-- Python `struct.pack(ASCII-lt-h, v)` for the `2 Bytes` scan type. -/
def packInt16 (v : Int) : Option (List Nat) :=
  if -(2 ^ 15) ≤ v ∧ v < 2 ^ 15 then some (leBytes 2 (v.emod (2 ^ 16)).toNat)
  else none

/-- Modelled from the spec: the engine never decodes a 16-bit value (the
source reads `2 Bytes` results back with `read_int`); this is the
`ValueCodec` decode for `Int16` from spec section 4.3, the signed
little-endian inverse of `packInt16`. -/
def unpackInt16 (bs : List Nat) : Int :=
  if fromLE bs < 2 ^ 15 then (fromLE bs : Int) else (fromLE bs : Int) - 2 ^ 16

/-- Python `struct.pack(ASCII-B, v)` for the `Byte` scan type: one unsigned
byte, raising unless `0 ≤ v < 256`. -/
def packUInt8 (v : Int) : Option (List Nat) :=
  if 0 ≤ v ∧ v < 2 ^ 8 then some [v.toNat] else none

/-- Modelled from the spec: the engine never decodes a single byte (the
source reads `Byte` results back with `read_int`); this is the `ValueCodec`
decode for `Byte` from spec section 4.3, the unsigned inverse of
`packUInt8`. -/
def unpackUInt8 (bs : List Nat) : Int := (fromLE bs : Int)

/-- NaN test on an IEEE-754 single-precision bit pattern: exponent all ones
and nonzero fraction. -/
def isNaN32 (b : Nat) : Bool :=
  (b / 2 ^ 23 % 2 ^ 8 == 255) && (b % 2 ^ 23 != 0)

/-- NaN test on an IEEE-754 double-precision bit pattern. -/
def isNaN64 (b : Nat) : Bool :=
  (b / 2 ^ 52 % 2 ^ 11 == 2047) && (b % 2 ^ 52 != 0)

/-- IEEE-754 equality on single-precision bit patterns: NaN equals nothing,
positive and negative zero are equal, and otherwise equal bit patterns are
equal values. -/
def ieeeEq32 (a b : Nat) : Bool :=
  if isNaN32 a || isNaN32 b then false
  else if a % 2 ^ 31 == 0 && b % 2 ^ 31 == 0 then true
  else a == b

/-- IEEE-754 equality on double-precision bit patterns (Python float `==`). -/
def ieeeEq64 (a b : Nat) : Bool :=
  if isNaN64 a || isNaN64 b then false
  else if a % 2 ^ 63 == 0 && b % 2 ^ 63 == 0 then true
  else a == b

/-- Exact widening of a single-precision bit pattern to the double-precision
bit pattern of the same value, as performed when `struct.unpack` of a packed
4-byte float returns a Python float (a double).  Denormals are renormalised
using the position `Nat.log2 f` of the leading fraction bit. -/
def widen32to64 (b : Nat) : Nat :=
  let s := b / 2 ^ 31 % 2
  let e := b / 2 ^ 23 % 2 ^ 8
  let f := b % 2 ^ 23
  if e == 255 then s * 2 ^ 63 + 2047 * 2 ^ 52 + f * 2 ^ 29
  else if e == 0 then
    if f == 0 then s * 2 ^ 63
    else s * 2 ^ 63 + (Nat.log2 f + 874) * 2 ^ 52 + (f - 2 ^ Nat.log2 f) * 2 ^ (52 - Nat.log2 f)
  else s * 2 ^ 63 + (e + 896) * 2 ^ 52 + f * 2 ^ 29

/-- The scan value after Python parsing, as the source consumes it:
`asInt` is `int(value)`; `asF32` is the single-precision bit pattern of
`struct.pack` of `float(value)` as a 4-byte float; `asF64` is the
double-precision bit pattern of `float(value)`.  Only the fields of the
branches actually taken by a given `value_type` are meaningful. -/
structure ParsedVal where
  asInt : Int
  asF32 : Nat
  asF64 : Nat

/-- Whether an `Except` computation finished without raising. -/
def exceptOk {α : Type} : Except String α → Bool := fun e =>
  match e with
  | Except.ok _ => true
  | Except.error _ => false

/-- The underlying `pymem.memory.read_bytes` call used by
`MemoryScanner.read_bytes`: raises (is an `Except.error`) when no process
handle is held or when the byte range cannot be read. -/
def raw_read_bytes (h : Option Nat) (m : Mem) (a n : Nat) :
    Except String (List Nat) :=
  match h with
  | none => Except.error "invalid handle"
  | some _ =>
    match readBytes m a n with
    | none => Except.error "could not read memory"
    | some d => Except.ok d

/-- `MemoryScanner.read_bytes`: the `try/except` wrapper around the raw
call, returning `None` on any failure. -/
def read_bytes (h : Option Nat) (m : Mem) (a n : Nat) : Option (List Nat) :=
  match raw_read_bytes h m a n with
  | Except.ok d => some d
  | Except.error _ => none

/-- The underlying `pymem.memory.read_int` call: 4 bytes decoded as a
signed 32-bit little-endian integer; raises on failure. -/
def raw_read_int (h : Option Nat) (m : Mem) (a : Nat) : Except String Int :=
  (raw_read_bytes h m a 4).map unpackInt32

/-- `MemoryScanner.read_int`: `try/except` wrapper returning `None` on
failure. -/
def read_int (h : Option Nat) (m : Mem) (a : Nat) : Option Int :=
  match raw_read_int h m a with
  | Except.ok v => some v
  | Except.error _ => none

/-- The underlying `pymem.memory.read_float` call: 4 bytes decoded as a
single-precision float and widened to the Python float (double) returned to
the caller, represented here by its double-precision bit pattern. -/
def raw_read_float (h : Option Nat) (m : Mem) (a : Nat) : Except String Nat :=
  (raw_read_bytes h m a 4).map (fun bs => widen32to64 (fromLE bs))

/-- `MemoryScanner.read_float`: `try/except` wrapper returning `None` on
failure. -/
def read_float (h : Option Nat) (m : Mem) (a : Nat) : Option Nat :=
  match raw_read_float h m a with
  | Except.ok v => some v
  | Except.error _ => none

/-- The underlying `pymem.memory.read_double` call: 8 bytes decoded as a
double, represented by its bit pattern. -/
def raw_read_double (h : Option Nat) (m : Mem) (a : Nat) : Except String Nat :=
  (raw_read_bytes h m a 8).map fromLE

/-- `MemoryScanner.read_double`: `try/except` wrapper returning `None` on
failure. -/
def read_double (h : Option Nat) (m : Mem) (a : Nat) : Option Nat :=
  match raw_read_double h m a with
  | Except.ok v => some v
  | Except.error _ => none

/-- Which byte addresses of the target are writable; a write succeeds only
if every byte of its range is writable (all-or-nothing
`WriteProcessMemory`). -/
abbrev WriteMap := Nat → Bool

/-- The underlying `pymem.memory.write_bytes` call: raises when no handle is
held or when the range is not fully writable. -/
def raw_write_bytes (h : Option Nat) (w : WriteMap) (a : Nat) (d : List Nat) :
    Except String Unit :=
  match h with
  | none => Except.error "invalid handle"
  | some _ =>
    if (List.range d.length).all (fun j => w (a + j)) then Except.ok ()
    else Except.error "could not write memory"

/-- `MemoryScanner.write_bytes`: `try/except` wrapper returning `False` on
any failure. -/
def write_bytes (h : Option Nat) (w : WriteMap) (a : Nat) (d : List Nat) : Bool :=
  match raw_write_bytes h w a d with
  | Except.ok _ => true
  | Except.error _ => false

/-- The underlying `pymem.memory.write_int` call: packs the value as a
signed 32-bit integer (raising `struct.error` when out of range) and writes
the 4 bytes. -/
def raw_write_int (h : Option Nat) (w : WriteMap) (a : Nat) (v : Int) :
    Except String Unit :=
  match packInt32 v with
  | none => Except.error "struct error"
  | some d => raw_write_bytes h w a d

/-- `MemoryScanner.write_int`: `try/except` wrapper returning `False` on
any failure. -/
def write_int (h : Option Nat) (w : WriteMap) (a : Nat) (v : Int) : Bool :=
  match raw_write_int h w a v with
  | Except.ok _ => true
  | Except.error _ => false

/-- The underlying `pymem.memory.write_float` call, with the value already
rounded to its single-precision bit pattern `b32` (packing a float never
raises). -/
def raw_write_float (h : Option Nat) (w : WriteMap) (a : Nat) (b32 : Nat) :
    Except String Unit :=
  raw_write_bytes h w a (leBytes 4 b32)

/-- `MemoryScanner.write_float`: `try/except` wrapper returning `False` on
any failure. -/
def write_float (h : Option Nat) (w : WriteMap) (a : Nat) (b32 : Nat) : Bool :=
  match raw_write_float h w a b32 with
  | Except.ok _ => true
  | Except.error _ => false

/-- The underlying `pymem.memory.write_double` call, with the value given by
its double-precision bit pattern `b64`. -/
def raw_write_double (h : Option Nat) (w : WriteMap) (a : Nat) (b64 : Nat) :
    Except String Unit :=
  raw_write_bytes h w a (leBytes 8 b64)

/-- `MemoryScanner.write_double`: `try/except` wrapper returning `False` on
any failure. -/
def write_double (h : Option Nat) (w : WriteMap) (a : Nat) (b64 : Nat) : Bool :=
  match raw_write_double h w a b64 with
  | Except.ok _ => true
  | Except.error _ => false

/-- The fixed `(base, size)` region list hardcoded in
`MemoryScanner.first_scan` (lines 121 to 126 of `memory_editor.py`). -/
def scanRegions : List (Nat × Nat) :=
  [(0x00400000, 0x01000000), (0x10000000, 0x10000000),
   (0x20000000, 0x10000000), (0x30000000, 0x10000000)]

/-- The pattern/stride dispatch of `MemoryScanner.first_scan` on the
`value_type` string: the encoded byte pattern of the target value together
with the scan stride.  `none` models `struct.pack` raising (an out-of-range
integer), which the per-region `except` swallows. -/
def encodePattern (vt : String) (v : ParsedVal) : Option (List Nat × Nat) :=
  if vt = "4 Bytes" then (packInt32 v.asInt).map (fun p => (p, 4))
  else if vt = "Float" then some (leBytes 4 v.asF32, 4)
  else if vt = "Double" then some (leBytes 8 v.asF64, 8)
  else if vt = "2 Bytes" then (packInt16 v.asInt).map (fun p => (p, 2))
  else if vt = "Byte" then (packUInt8 v.asInt).map (fun p => (p, 1))
  else (packInt32 v.asInt).map (fun p => (p, 4))

/-- The inner pattern loop of `MemoryScanner.first_scan` over one chunk:
Python `for i in range(0, len(data) - len(pattern), step)`, appending
`base_addr + i` whenever `data[i:i+len(pattern)] == pattern`. -/
def scanChunk (data pat : List Nat) (stride base : Nat) : List Nat :=
  (pyRange (data.length - pat.length) stride).filterMap
    (fun i => if (data.drop i).take pat.length = pat then some (base + i) else none)

/-- One iteration of the region loop of `first_scan`: the region is read in
one piece with `read_bytes`; a failed read (falsy `data`) skips the region. -/
def regionHits (h : Option Nat) (m : Mem) (pat : List Nat) (stride : Nat)
    (r : Nat × Nat) : List Nat :=
  match read_bytes h m r.1 r.2 with
  | none => []
  | some data => scanChunk data pat stride r.1

/-- `MemoryScanner.first_scan`, run to completion (the worker thread is
modelled synchronously and no `stop_scan` intervenes): returns `[]` when no
process is attached, otherwise scans the four hardcoded regions in order and
concatenates the per-region hits. -/
def first_scan (h : Option Nat) (m : Mem) (vt : String) (v : ParsedVal) :
    List Nat :=
  match h with
  | none => []
  | some _ =>
    match encodePattern vt v with
    | none => []
    | some ps => (scanRegions.map (regionHits h m ps.1 ps.2)).flatten

/-- The per-address re-check of `MemoryScanner.next_scan`: re-read the
address with the reader selected by `value_type` and keep the address iff
the read succeeds (`current is not None`) and the current value equals the
target under Python `==` (IEEE equality for floats). -/
def next_scan_keep (h : Option Nat) (m : Mem) (vt : String) (v : ParsedVal)
    (a : Nat) : Bool :=
  if vt = "4 Bytes" then
    match read_int h m a with
    | some c => c == v.asInt
    | none => false
  else if vt = "Float" then
    match read_float h m a with
    | some bits => ieeeEq64 bits v.asF64
    | none => false
  else if vt = "Double" then
    match read_double h m a with
    | some bits => ieeeEq64 bits v.asF64
    | none => false
  else
    match read_int h m a with
    | some c => c == v.asInt
    | none => false

/-- `MemoryScanner.next_scan`, run to completion: returns the plain empty
list when no process is attached or when the previous result list is empty
(the source's `if not self.process or not self.found_addresses: return []`),
and otherwise keeps exactly the previous addresses whose re-read value still
matches. -/
def next_scan (h : Option Nat) (m : Mem) (vt : String) (v : ParsedVal)
    (prev : List Nat) : List Nat :=
  match h with
  | none => []
  | some _ =>
    if prev = [] then []
    else prev.filter (next_scan_keep h m vt v)

/-- Modelled from the spec: the `RegionEnumerator` of spec section 4.2 does
not exist in the source.  Per the spec's words it yields the target's actual
committed readable regions, supplied here as `actualRegions` (the process's
true region map as the OS would report it); the scan over those regions
reuses the source's chunk scanner so that only region discovery differs from
`first_scan`. -/
def spec_first_scan (actualRegions : List (Nat × Nat)) (h : Option Nat)
    (m : Mem) (vt : String) (v : ParsedVal) : List Nat :=
  match h with
  | none => []
  | some _ =>
    match encodePattern vt v with
    | none => []
    | some ps => (actualRegions.map (regionHits h m ps.1 ps.2)).flatten

/-- `MemoryScanner.get_process_list`: iterate the running processes, skip
those whose info raises (`ok p = false` models the `except` branch), and
sort by the lowercased process name.  Python `sorted` is a stable sort, as
is `List.insertionSort`, so the two agree exactly. -/
def get_process_list (procs : List (Nat × String))
    (ok : Nat × String → Bool) : List (Nat × String) :=
  List.insertionSort (fun a b => a.2.toLower ≤ b.2.toLower) (procs.filter ok)

/-- Environment of one `DLLInjector.eject_dll` call.  `ownModules` is the
module table of the injector's own process (what `GetModuleHandleW`
consults); `targetModules` is the module table of the target process
identified by the pid argument; `threadExit` is the exit code the remote
`FreeLibrary` thread would report (nonzero on success). -/
structure EjectEnv where
  openOk : Bool
  ownModules : String → Option Nat
  targetModules : String → Option Nat
  freeLibraryAddr : Option Nat
  createThreadOk : Bool
  threadExit : Nat

/-- `DLLInjector.eject_dll` (lines 169 to 231 of `dll_injector.py`): opens
the target, resolves the module with `GetModuleHandleW(dll_name)` (which
looks in the calling process, `env.ownModules`), resolves `FreeLibrary`,
creates the remote thread, waits, closes the handles, and returns success
without ever reading the thread's exit code. -/
def eject_dll (env : EjectEnv) (dllName : String) : Bool × String :=
  if env.openOk = false then (false, "Failed to open process")
  else
    match env.ownModules dllName with
    | none => (false, "DLL not found in process")
    | some _ =>
      match env.freeLibraryAddr with
      | none => (false, "Failed to get FreeLibrary address")
      | some _ =>
        if env.createThreadOk = false then (false, "Failed to create remote thread")
        else (true, "DLL ejected successfully")

/-- The parsed value `100` (`int(value) = 100`; the float fields hold the
bit patterns of `100.0`, unused on integer paths). -/
def pv100 : ParsedVal := ⟨100, 0x42C80000, 0x4059000000000000⟩

/-- The parsed value `float(nan)`: `asF32` is the single-precision quiet
NaN `struct.pack` produces for it, `asF64` its double-precision pattern
(`asInt` is irrelevant: `int(nan)` raises and no integer path uses it). -/
def pvNaN : ParsedVal := ⟨0, 0x7FC00000, 0x7FF8000000000000⟩

/-- Bytes of a committed 8-byte region holding the 32-bit integer `100` at
its base, i.e. little-endian `64 00 00 00` followed by zero padding. -/
def c1Bytes (j : Nat) : Nat := [100, 0, 0, 0, 0, 0, 0, 0].getD j 0

/-- A memory map with a single committed readable window of `size` bytes at
`base`, holding the bytes `g 0, g 1, ...`; every other address is
unreadable. -/
def window (base size : Nat) (g : Nat → Nat) : Mem := fun a =>
  if base ≤ a ∧ a < base + size then some (g (a - base)) else none

/-- A target process whose only committed readable memory is the 8-byte
region at `0x7FFE0000` holding `c1Bytes`; every address of the source's four
hardcoded regions is unreadable. -/
def memC1 : Mem := window 0x7FFE0000 8 c1Bytes

/-- Bytes of the single-precision quiet NaN pattern `00 00 C0 7F` followed
by zeros. -/
def nanPat (j : Nat) : Nat := [0, 0, 0xC0, 0x7F].getD j 0

/-- A target process whose first hardcoded region
`[0x00400000, 0x01400000)` is fully committed and holds the quiet-NaN byte
pattern at its base followed by zeros; everything else is unreadable. -/
def memNaN : Mem := window 0x00400000 0x01000000 nanPat

/-- A target process with no readable memory at all. -/
def memNone : Mem := fun _ => none

/-- An eject environment in which `mydll.dll` is loaded in the target
process but not in the injector's own process, and everything else would
succeed. -/
def envEjectA : EjectEnv :=
  ⟨true, fun _ => none,
   fun n => if n = "mydll.dll" then some 0x10000000 else none,
   some 0x77000000, true, 1⟩

/-- An eject environment in which `mydll.dll` happens to be loaded in the
injector's own process as well, and the remote `FreeLibrary` thread reports
failure (exit code 0). -/
def envEjectB : EjectEnv :=
  ⟨true, fun n => if n = "mydll.dll" then some 0x6000 else none,
   fun n => if n = "mydll.dll" then some 0x10000000 else none,
   some 0x77000000, true, 0⟩

/-! ### Helper lemmas -/

theorem leBytes_succ (w u : Nat) :
    leBytes (w + 1) u = u % 256 :: leBytes w (u / 256) := rfl

theorem fromLE_cons (b : Nat) (bs : List Nat) :
    fromLE (b :: bs) = b + 256 * fromLE bs := rfl

theorem fromLE_leBytes (w : Nat) : ∀ u, fromLE (leBytes w u) = u % 256 ^ w := by
  induction w with
  | zero => intro u; simp [leBytes, fromLE]; omega
  | succ k ih =>
    intro u
    rw [leBytes_succ, fromLE_cons, ih, pow_succ']
    exact Nat.mod_mul.symm

/-! ### Claim theorems, first group -/

/-- Claim C3: for every supported value type, decoding the encoding of an
in-range value yields the value again; float values round-trip at the bit
pattern level, and IEEE equality of the round-tripped pattern with itself
holds exactly when it is not NaN, so a NaN never compares equal to
itself. -/
theorem C3_codec_round_trip :
    (∀ v : Int, -(2 ^ 31) ≤ v → v < 2 ^ 31 →
      ∃ bs, packInt32 v = some bs ∧ unpackInt32 bs = v) ∧
    (∀ v : Int, -(2 ^ 15) ≤ v → v < 2 ^ 15 →
      ∃ bs, packInt16 v = some bs ∧ unpackInt16 bs = v) ∧
    (∀ v : Int, 0 ≤ v → v < 2 ^ 8 →
      ∃ bs, packUInt8 v = some bs ∧ unpackUInt8 bs = v) ∧
    (∀ b : Nat, b < 2 ^ 32 →
      fromLE (leBytes 4 b) = b ∧ ieeeEq32 b b = !isNaN32 b) ∧
    (∀ b : Nat, b < 2 ^ 64 →
      fromLE (leBytes 8 b) = b ∧ ieeeEq64 b b = !isNaN64 b) := by
  have h2564 : (256 : Nat) ^ 4 = 2 ^ 32 := by norm_num
  have h2562 : (256 : Nat) ^ 2 = 2 ^ 16 := by norm_num
  have h2568 : (256 : Nat) ^ 8 = 2 ^ 64 := by norm_num
  refine ⟨?_, ?_, ?_, ?_, ?_⟩
  · intro v h1 h2
    refine ⟨leBytes 4 (v.emod (2 ^ 32)).toNat, ?_, ?_⟩
    · rw [packInt32, if_pos ⟨h1, h2⟩]
    · have h3 : (0 : Int) ≤ v.emod (2 ^ 32) := Int.emod_nonneg v (by norm_num)
      have h4 : v.emod (2 ^ 32) < 2 ^ 32 := Int.emod_lt_of_pos v (by norm_num)
      rw [unpackInt32, fromLE_leBytes, h2564]
      have h5 : (v.emod (2 ^ 32)).toNat % 2 ^ 32 = (v.emod (2 ^ 32)).toNat := by
        apply Nat.mod_eq_of_lt; omega
      rw [h5]
      rcases le_or_lt 0 v with hv | hv
      · have h6 : v.emod (2 ^ 32) = v := Int.emod_eq_of_lt hv (by omega)
        rw [h6]
        split <;> omega
      · have h7 : (v + 2 ^ 32) % (2 ^ 32) = v % (2 ^ 32) := by
          have h8 := Int.add_mul_emod_self_left v (2 ^ 32) 1
          rw [mul_one] at h8
          exact h8
        have h6 : v.emod (2 ^ 32) = v + 2 ^ 32 := by
          show v % (2 ^ 32) = v + 2 ^ 32
          rw [← h7]; exact Int.emod_eq_of_lt (by omega) (by omega)
        rw [h6]
        split <;> omega
  · intro v h1 h2
    refine ⟨leBytes 2 (v.emod (2 ^ 16)).toNat, ?_, ?_⟩
    · rw [packInt16, if_pos ⟨h1, h2⟩]
    · have h3 : (0 : Int) ≤ v.emod (2 ^ 16) := Int.emod_nonneg v (by norm_num)
      have h4 : v.emod (2 ^ 16) < 2 ^ 16 := Int.emod_lt_of_pos v (by norm_num)
      rw [unpackInt16, fromLE_leBytes, h2562]
      have h5 : (v.emod (2 ^ 16)).toNat % 2 ^ 16 = (v.emod (2 ^ 16)).toNat := by
        apply Nat.mod_eq_of_lt; omega
      rw [h5]
      rcases le_or_lt 0 v with hv | hv
      · have h6 : v.emod (2 ^ 16) = v := Int.emod_eq_of_lt hv (by omega)
        rw [h6]
        split <;> omega
      · have h7 : (v + 2 ^ 16) % (2 ^ 16) = v % (2 ^ 16) := by
          have h8 := Int.add_mul_emod_self_left v (2 ^ 16) 1
          rw [mul_one] at h8
          exact h8
        have h6 : v.emod (2 ^ 16) = v + 2 ^ 16 := by
          show v % (2 ^ 16) = v + 2 ^ 16
          rw [← h7]; exact Int.emod_eq_of_lt (by omega) (by omega)
        rw [h6]
        split <;> omega
  · intro v h1 h2
    refine ⟨[v.toNat], ?_, ?_⟩
    · rw [packUInt8, if_pos ⟨h1, h2⟩]
    · show ((fromLE [v.toNat] : Nat) : Int) = v
      simp [fromLE]
      omega
  · intro b hb
    constructor
    · rw [fromLE_leBytes, h2564]; exact Nat.mod_eq_of_lt hb
    · cases hn : isNaN32 b <;> simp [ieeeEq32, hn]
  · intro b hb
    constructor
    · rw [fromLE_leBytes, h2568]; exact Nat.mod_eq_of_lt hb
    · cases hn : isNaN64 b <;> simp [ieeeEq64, hn]

/-- Witness for C3 at concrete inputs of each type. -/
theorem C3_codec_round_trip_witness :
    (∃ bs, packInt32 (-2) = some bs ∧ unpackInt32 bs = -2) ∧
    (∃ bs, packInt16 (-2) = some bs ∧ unpackInt16 bs = -2) ∧
    (∃ bs, packUInt8 200 = some bs ∧ unpackUInt8 bs = 200) ∧
    (fromLE (leBytes 4 0x7FC00000) = 0x7FC00000 ∧
      ieeeEq32 0x7FC00000 0x7FC00000 = !isNaN32 0x7FC00000) ∧
    (fromLE (leBytes 8 0x7FF8000000000000) = 0x7FF8000000000000 ∧
      ieeeEq64 0x7FF8000000000000 0x7FF8000000000000 = !isNaN64 0x7FF8000000000000) :=
  ⟨C3_codec_round_trip.1 (-2) (by norm_num) (by norm_num),
   C3_codec_round_trip.2.1 (-2) (by norm_num) (by norm_num),
   C3_codec_round_trip.2.2.1 200 (by norm_num) (by norm_num),
   C3_codec_round_trip.2.2.2.1 0x7FC00000 (by norm_num),
   C3_codec_round_trip.2.2.2.2 0x7FF8000000000000 (by norm_num)⟩

/-- Claim C4: on a non-empty previous result list, `next_scan` returns a
subset of the previous addresses: narrowing never adds an address and never
grows the list. -/
theorem C4_next_scan_subset (h : Option Nat) (m : Mem) (vt : String)
    (v : ParsedVal) (prev : List Nat) (hne : prev ≠ []) :
    (∀ a ∈ next_scan h m vt v prev, a ∈ prev) ∧
      (next_scan h m vt v prev).length ≤ prev.length := by
  cases h with
  | none => simp [next_scan]
  | some x =>
    simp only [next_scan, if_neg hne]
    exact ⟨fun a ha => List.mem_of_mem_filter ha, List.length_filter_le _ _⟩

/-- Witness for C4 at a concrete one-element previous list. -/
theorem C4_next_scan_subset_witness :
    (∀ a ∈ next_scan (some 1) memNone "4 Bytes" pv100 [5], a ∈ [5]) ∧
      (next_scan (some 1) memNone "4 Bytes" pv100 [5]).length ≤ [5].length :=
  C4_next_scan_subset (some 1) memNone "4 Bytes" pv100 [5] (by decide)

/-- Counterexample to claim C7: the source's `next_scan` does not fail with
a typed `EmptyScan` error on an empty previous result set; it returns the
plain empty list, the very same value an ordinary narrowing scan that found
nothing returns (here: a previous list `[5]` whose re-read fails). -/
theorem C7_empty_previous_not_typed :
    next_scan (some 1) memNone "4 Bytes" pv100 [] =
      next_scan (some 1) memNone "4 Bytes" pv100 [5] := by decide

/-- Claim C7 as amended: `next_scan` with an empty previous result list
returns the empty list immediately (it never scans), with no typed failure
distinguishing it from a scan that found nothing. -/
theorem C7_next_scan_empty_prev (h : Option Nat) (m : Mem) (vt : String)
    (v : ParsedVal) : next_scan h m vt v [] = [] := by
  cases h <;> simp [next_scan]

/-- Claim C9: every raw read and write primitive of the scanner is total at
the public interface: a wrapped read returns `some` exactly when the
underlying call does not raise (so `none` on any failure), a wrapped write
returns `true` exactly when the underlying call does not raise (so `false`
on any failure), and with no process attached every read returns `none` and
every write returns `false`. -/
theorem C9_primitives_total (h : Option Nat) (m : Mem) (w : WriteMap)
    (a n : Nat) (v : Int) (b32 b64 : Nat) (d : List Nat) :
    ((read_bytes h m a n).isSome = exceptOk (raw_read_bytes h m a n)) ∧
    ((read_int h m a).isSome = exceptOk (raw_read_int h m a)) ∧
    ((read_float h m a).isSome = exceptOk (raw_read_float h m a)) ∧
    ((read_double h m a).isSome = exceptOk (raw_read_double h m a)) ∧
    (write_bytes h w a d = exceptOk (raw_write_bytes h w a d)) ∧
    (write_int h w a v = exceptOk (raw_write_int h w a v)) ∧
    (write_float h w a b32 = exceptOk (raw_write_float h w a b32)) ∧
    (write_double h w a b64 = exceptOk (raw_write_double h w a b64)) ∧
    read_bytes none m a n = none ∧ read_int none m a = none ∧
    read_float none m a = none ∧ read_double none m a = none ∧
    write_bytes none w a d = false ∧ write_int none w a v = false ∧
    write_float none w a b32 = false ∧ write_double none w a b64 = false := by
  refine ⟨?_, ?_, ?_, ?_, ?_, ?_, ?_, ?_, ?_, ?_, ?_, ?_, ?_, ?_, ?_, ?_⟩
  · cases hx : raw_read_bytes h m a n <;> simp [read_bytes, hx, exceptOk]
  · cases hx : raw_read_int h m a <;> simp [read_int, hx, exceptOk]
  · cases hx : raw_read_float h m a <;> simp [read_float, hx, exceptOk]
  · cases hx : raw_read_double h m a <;> simp [read_double, hx, exceptOk]
  · cases hx : raw_write_bytes h w a d <;> simp [write_bytes, hx, exceptOk]
  · cases hx : raw_write_int h w a v <;> simp [write_int, hx, exceptOk]
  · cases hx : raw_write_float h w a b32 <;> simp [write_float, hx, exceptOk]
  · cases hx : raw_write_double h w a b64 <;> simp [write_double, hx, exceptOk]
  · simp [read_bytes, raw_read_bytes]
  · simp [read_int, raw_read_int, raw_read_bytes, Except.map]
  · simp [read_float, raw_read_float, raw_read_bytes, Except.map]
  · simp [read_double, raw_read_double, raw_read_bytes, Except.map]
  · simp [write_bytes, raw_write_bytes]
  · cases hp : packInt32 v <;>
      simp [write_int, raw_write_int, raw_write_bytes, hp]
  · simp [write_float, raw_write_float, raw_write_bytes]
  · simp [write_double, raw_write_double, raw_write_bytes]

/-- Claim C10: the process list is always sorted in ascending order of the
lowercased process name. -/
theorem C10_process_list_sorted (procs : List (Nat × String))
    (ok : Nat × String → Bool) :
    List.Sorted (fun a b : Nat × String => a.2.toLower ≤ b.2.toLower)
      (get_process_list procs ok) := by
  haveI h1 : IsTotal (Nat × String) (fun a b => a.2.toLower ≤ b.2.toLower) :=
    ⟨fun a b => le_total a.2.toLower b.2.toLower⟩
  haveI h2 : IsTrans (Nat × String) (fun a b => a.2.toLower ≤ b.2.toLower) :=
    ⟨fun a b c hab hbc => le_trans hab hbc⟩
  exact List.sorted_insertionSort _ _

/-! ### Sortedness infrastructure -/

theorem window_read (base size : Nat) (g : Nat → Nat) (j : Nat)
    (hj : j < size) : window base size g (base + j) = some (g j) := by
  unfold window
  split
  · rw [Nat.add_sub_cancel_left]
  · exfalso
    omega

theorem readBytes_length (n : Nat) : ∀ (m : Mem) (b : Nat) (d : List Nat),
    readBytes m b n = some d → d.length = n := by
  induction n with
  | zero =>
    intro m b d hd
    simp only [readBytes, readBytesAux, Option.some.injEq] at hd
    rw [← hd]
    rfl
  | succ k ih =>
    intro m b d hd
    simp only [readBytes, readBytesAux] at hd
    cases hm : m b with
    | none => rw [hm] at hd; exact absurd hd (by simp)
    | some x =>
      rw [hm] at hd
      cases hr : readBytesAux m (b + 1) k with
      | none => rw [hr] at hd; exact absurd hd (by simp)
      | some rest =>
        rw [hr] at hd
        simp only [Option.some.injEq] at hd
        rw [← hd]
        have hlen := ih m (b + 1) rest hr
        simp [hlen]

theorem readBytes_map_range (n : Nat) : ∀ (m : Mem) (b : Nat) (g : Nat → Nat),
    (∀ j, j < n → m (b + j) = some (g j)) →
    readBytes m b n = some ((List.range n).map g) := by
  induction n with
  | zero => intro m b g _; simp [readBytes, readBytesAux]
  | succ k ih =>
    intro m b g hg
    have h0 : m b = some (g 0) := by
      have hx := hg 0 (by omega)
      simpa using hx
    have h1 : readBytes m (b + 1) k =
        some ((List.range k).map (fun j => g (j + 1))) := by
      apply ih
      intro j hj
      have hx := hg (j + 1) (by omega)
      rw [← hx]
      congr 1
      omega
    show readBytesAux m b (k + 1) = _
    simp only [readBytesAux, h0]
    rw [show readBytesAux m (b + 1) k = readBytes m (b + 1) k from rfl, h1]
    simp [List.range_succ_eq_map, List.map_map, Function.comp]

theorem pyRange_pairwise (stop stride : Nat) :
    List.Pairwise (· < ·) (pyRange stop stride) := by
  rcases Nat.eq_zero_or_pos stride with hs | hs
  · subst hs
    simp [pyRange]
  · exact (List.pairwise_lt_range _).map (fun j => j * stride)
      (fun a b hab => (mul_lt_mul_right hs).mpr hab)

theorem pyRange_lt {stop stride i : Nat} (hi : i ∈ pyRange stop stride) :
    i < stop := by
  rcases Nat.eq_zero_or_pos stride with hs | hs
  · subst hs; simp [pyRange] at hi
  · obtain ⟨j, hj, rfl⟩ := List.mem_map.mp hi
    rw [List.mem_range] at hj
    have h2 : (j + 1) * stride ≤ stop + stride - 1 :=
      (Nat.le_div_iff_mul_le hs).mp hj
    have h3 : (j + 1) * stride = j * stride + stride := by ring
    omega

theorem scanChunk_pairwise (data pat : List Nat) (stride base : Nat) :
    List.Pairwise (· < ·) (scanChunk data pat stride base) := by
  unfold scanChunk
  refine List.Pairwise.filterMap _ ?_
    (pyRange_pairwise (data.length - pat.length) stride)
  intro a b hab c hc d hd
  split at hc
  · split at hd
    · rw [Option.mem_def, Option.some.injEq] at hc hd
      omega
    · exact absurd hd (by simp)
  · exact absurd hc (by simp)

theorem scanChunk_mem_intro {data pat : List Nat} {stride base i : Nat}
    (hi : i ∈ pyRange (data.length - pat.length) stride)
    (hslice : (data.drop i).take pat.length = pat) :
    base + i ∈ scanChunk data pat stride base :=
  List.mem_filterMap.mpr ⟨i, hi, by rw [if_pos hslice]⟩

theorem mem_scanChunk {data pat : List Nat} {stride base a : Nat}
    (ha : a ∈ scanChunk data pat stride base) :
    base ≤ a ∧ a < base + data.length := by
  obtain ⟨i, hi, hfi⟩ := List.mem_filterMap.mp ha
  split at hfi
  · rw [Option.some.injEq] at hfi
    have h1 : i < data.length - pat.length := pyRange_lt hi
    omega
  · exact absurd hfi (by simp)

theorem read_bytes_of_readBytes {m : Mem} {a n : Nat} {d : List Nat}
    (x : Nat) (hd : readBytes m a n = some d) :
    read_bytes (some x) m a n = some d := by
  unfold read_bytes raw_read_bytes
  rw [hd]

theorem read_bytes_readBytes {h : Option Nat} {m : Mem} {a n : Nat}
    {d : List Nat} (hd : read_bytes h m a n = some d) :
    readBytes m a n = some d := by
  cases h with
  | none => simp [read_bytes, raw_read_bytes] at hd
  | some x =>
    simp only [read_bytes, raw_read_bytes] at hd
    cases hr : readBytes m a n with
    | none => rw [hr] at hd; simp at hd
    | some e => rw [hr] at hd; simp at hd; rw [hd]

theorem regionHits_pairwise (h : Option Nat) (m : Mem) (pat : List Nat)
    (stride : Nat) (r : Nat × Nat) :
    List.Pairwise (· < ·) (regionHits h m pat stride r) := by
  unfold regionHits
  cases read_bytes h m r.1 r.2 with
  | none => exact List.Pairwise.nil
  | some data => exact scanChunk_pairwise _ _ _ _

theorem regionHits_eq {h : Option Nat} {m : Mem} {pat : List Nat}
    {stride : Nat} (r : Nat × Nat) {data : List Nat}
    (hd : read_bytes h m r.1 r.2 = some data) :
    regionHits h m pat stride r = scanChunk data pat stride r.1 := by
  unfold regionHits
  rw [hd]

theorem mem_regionHits {h : Option Nat} {m : Mem} {pat : List Nat}
    {stride : Nat} {r : Nat × Nat} {a : Nat}
    (ha : a ∈ regionHits h m pat stride r) :
    r.1 ≤ a ∧ a < r.1 + r.2 := by
  unfold regionHits at ha
  cases hrb : read_bytes h m r.1 r.2 with
  | none => rw [hrb] at ha; simp at ha
  | some data =>
    rw [hrb] at ha
    have hb := mem_scanChunk ha
    have hlen : data.length = r.2 :=
      readBytes_length r.2 m r.1 data (read_bytes_readBytes hrb)
    omega

theorem flatten_regionHits_pairwise (h : Option Nat) (m : Mem)
    (pat : List Nat) (stride : Nat) :
    ∀ rs : List (Nat × Nat),
      List.Pairwise (fun r r2 : Nat × Nat => r.1 + r.2 ≤ r2.1) rs →
      List.Pairwise (· < ·) ((rs.map (regionHits h m pat stride)).flatten) := by
  intro rs
  induction rs with
  | nil => intro _; simp
  | cons r rest ih =>
    intro hp
    rw [List.pairwise_cons] at hp
    rw [List.map_cons, List.flatten_cons]
    apply List.pairwise_append.mpr
    refine ⟨regionHits_pairwise h m pat stride r, ih hp.2, ?_⟩
    intro a ha b hb
    obtain ⟨l, hl, hbl⟩ := List.mem_flatten.mp hb
    obtain ⟨r2, hr2, hr2e⟩ := List.mem_map.mp hl
    rw [← hr2e] at hbl
    have h1 := mem_regionHits ha
    have h2 := mem_regionHits hbl
    have h3 : r.1 + r.2 ≤ r2.1 := hp.1 r2 hr2
    omega

/-! ### Claim theorems, second group -/

/-- Claim C8: every address list produced by a completed `first_scan` is
strictly ascending (the hardcoded regions are disjoint and listed in
ascending order, and within a region offsets increase), and `next_scan`
preserves strict ascending order of its input list; a strictly ascending
list has no duplicates. -/
theorem C8_results_sorted (h : Option Nat) (m : Mem) (vt : String)
    (v : ParsedVal) (prev : List Nat) :
    List.Sorted (· < ·) (first_scan h m vt v) ∧
      (List.Sorted (· < ·) prev →
        List.Sorted (· < ·) (next_scan h m vt v prev)) := by
  constructor
  · cases h with
    | none => simp [first_scan]
    | some x =>
      unfold first_scan
      cases hep : encodePattern vt v with
      | none => exact List.sorted_nil
      | some ps =>
        show List.Pairwise (· < ·) _
        apply flatten_regionHits_pairwise
        decide
  · intro hprev
    cases h with
    | none => simp [next_scan]
    | some x =>
      show List.Sorted (· < ·)
        (if prev = [] then [] else prev.filter (next_scan_keep (some x) m vt v))
      split
      · exact List.sorted_nil
      · exact List.Pairwise.filter _ hprev

/-- Witness for C8 at concrete inputs. -/
theorem C8_results_sorted_witness :
    List.Sorted (· < ·) (first_scan (some 1) memNone "4 Bytes" pv100) ∧
      List.Sorted (· < ·) (next_scan (some 1) memNone "4 Bytes" pv100 [3, 7]) :=
  ⟨(C8_results_sorted (some 1) memNone "4 Bytes" pv100 [3, 7]).1,
   (C8_results_sorted (some 1) memNone "4 Bytes" pv100 [3, 7]).2
     (by decide : List.Pairwise (· < ·) [3, 7])⟩

/-! ### Claim theorems, third group -/

/-- Claim C1, evaluated at the failing input: `first_scan` consults only the
four hardcoded regions, so on a process whose sole committed readable region
is the 8 bytes at `0x7FFE0000` holding the value `100`, the scan for `100`
returns nothing, while the same chunk scan driven by the spec's
`RegionEnumerator` (scanning the actually committed region reported by the
OS) finds the address. -/
theorem C1_fixed_regions_miss :
    first_scan (some 1) memC1 "4 Bytes" pv100 = [] ∧
      spec_first_scan [(0x7FFE0000, 8)] (some 1) memC1 "4 Bytes" pv100 =
        [0x7FFE0000] := by decide

/-- Claim C2, evaluated at the failing input: in the chunk `[100, 0, 0, 0]`
the encoded pattern of `100` occurs at offset `0`, which is aligned
(`0 % 4 = 0`) and is the last aligned offset at which the whole pattern
fits, yet the chunk scan of `first_scan` reports no match, because Python's
`range(0, len(data) - len(pattern), step)` excludes its upper bound. -/
theorem C2_last_aligned_offset_missed :
    (([100, 0, 0, 0].drop 0).take 4 = [100, 0, 0, 0] ∧ 0 % 4 = 0) ∧
      scanChunk [100, 0, 0, 0] [100, 0, 0, 0] 4 0 = [] := by decide

/-- Counterexample to claim C5: a first scan at type `Float` whose parsed
target value is NaN does not return the empty list when the target process
holds the same NaN bit pattern: the byte-level comparison of `first_scan`
matches it. -/
theorem C5_first_scan_nan_matches :
    first_scan (some 1) memNaN "Float" pvNaN ≠ [] := by
  have hpat : encodePattern "Float" pvNaN = some ([0, 0, 0xC0, 0x7F], 4) := by
    decide
  have hread : readBytes memNaN 0x00400000 0x01000000 =
      some ((List.range 0x01000000).map nanPat) := by
    apply readBytes_map_range
    intro j hj
    exact window_read _ _ _ _ hj
  have hrb : read_bytes (some 1) memNaN 0x00400000 0x01000000 =
      some ((List.range 0x01000000).map nanPat) :=
    read_bytes_of_readBytes 1 hread
  have hi : (0 : Nat) ∈
      pyRange (((List.range 0x01000000).map nanPat).length -
        ([0, 0, 0xC0, 0x7F] : List Nat).length) 4 := by
    rw [List.length_map, List.length_range]
    unfold pyRange
    refine List.mem_map.mpr ⟨0, List.mem_range.mpr (by norm_num), by norm_num⟩
  have hslice : ((((List.range 0x01000000).map nanPat).drop 0).take
      ([0, 0, 0xC0, 0x7F] : List Nat).length) = [0, 0, 0xC0, 0x7F] := by
    rw [List.drop_zero, ← List.map_take, List.take_range]
    decide
  have hmem : (0x00400000 : Nat) + 0 ∈
      scanChunk ((List.range 0x01000000).map nanPat) [0, 0, 0xC0, 0x7F] 4
        0x00400000 := scanChunk_mem_intro hi hslice
  have hfs : first_scan (some 1) memNaN "Float" pvNaN =
      (scanRegions.map (regionHits (some 1) memNaN [0, 0, 0xC0, 0x7F] 4)).flatten := by
    unfold first_scan
    rw [hpat]
  have hmem2 : (0x00400000 : Nat) + 0 ∈
      first_scan (some 1) memNaN "Float" pvNaN := by
    rw [hfs]
    apply List.mem_flatten.mpr
    refine ⟨regionHits (some 1) memNaN [0, 0, 0xC0, 0x7F] 4
      (0x00400000, 0x01000000), List.mem_map_of_mem _ (by decide), ?_⟩
    rw [regionHits_eq (0x00400000, 0x01000000) hrb]
    exact hmem
  exact List.ne_nil_of_mem hmem2

/-- Claim C5 as amended: a next scan at a float type (`Float` or `Double`)
whose parsed target value is NaN always returns the empty list, because
Python float equality is IEEE equality and NaN equals nothing; a first scan
compares encoded bytes instead and can match an identical NaN bit
pattern. -/
theorem C5_next_scan_nan_empty (h : Option Nat) (m : Mem) (v : ParsedVal)
    (prev : List Nat) (hnan : isNaN64 v.asF64 = true) :
    next_scan h m "Float" v prev = [] ∧ next_scan h m "Double" v prev = [] := by
  have hkf : ∀ a, next_scan_keep h m "Float" v a = false := by
    intro a
    unfold next_scan_keep
    rw [if_neg (by decide : ¬("Float" : String) = "4 Bytes"),
      if_pos (rfl : ("Float" : String) = "Float")]
    cases read_float h m a with
    | none => rfl
    | some bits => simp [ieeeEq64, hnan]
  have hkd : ∀ a, next_scan_keep h m "Double" v a = false := by
    intro a
    unfold next_scan_keep
    rw [if_neg (by decide : ¬("Double" : String) = "4 Bytes"),
      if_neg (by decide : ¬("Double" : String) = "Float"),
      if_pos (rfl : ("Double" : String) = "Double")]
    cases read_double h m a with
    | none => rfl
    | some bits => simp [ieeeEq64, hnan]
  constructor
  · cases h with
    | none => rfl
    | some x =>
      show (if prev = [] then []
        else prev.filter (next_scan_keep (some x) m "Float" v)) = []
      split
      · rfl
      · exact List.filter_eq_nil_iff.mpr (fun a _ => by simp [hkf a])
  · cases h with
    | none => rfl
    | some x =>
      show (if prev = [] then []
        else prev.filter (next_scan_keep (some x) m "Double" v)) = []
      split
      · rfl
      · exact List.filter_eq_nil_iff.mpr (fun a _ => by simp [hkd a])

/-- Witness for the amended C5 at concrete inputs. -/
theorem C5_next_scan_nan_empty_witness :
    next_scan (some 1) memNone "Float" pvNaN [4] = [] ∧
      next_scan (some 1) memNone "Double" pvNaN [4] = [] :=
  C5_next_scan_nan_empty (some 1) memNone pvNaN [4] (by decide)

/-- Claim C6, evaluated at the failing inputs: with `mydll.dll` loaded in
the target process but not in the injector's own process, `eject_dll` fails
with the not-found message, because `GetModuleHandleW` consults the calling
process rather than the target; and in an environment whose remote
`FreeLibrary` thread exits with code `0`, `eject_dll` still reports
success, because the thread's exit code is never read. -/
theorem C6_eject_dll_divergence :
    ((envEjectA.targetModules "mydll.dll").isSome = true ∧
      eject_dll envEjectA "mydll.dll" = (false, "DLL not found in process")) ∧
      (envEjectB.threadExit = 0 ∧ (eject_dll envEjectB "mydll.dll").1 = true) := by
  decide

end CipherV2
